import Mathlib

/-!
Verification development for the `lite-cornea` Iris debug bridge.

This file gives a shallow embedding, in Lean, of the parts of the Rust
source that the specification's claims are about:

* the RPC client's message-id assignment, response correlation and
  handshake logic (`src/lib.rs`, module `iris_client`);
* the wire-frame parsing inside `wait_for_many` (`src/lib.rs`);
* the GDB debug-stub adapter for ARMv8-A (`src/gdb/a64.rs`) and ARMv7-M
  (`src/gdb/t32.rs`): the resume/poll loop, watch-trigger resolution,
  breakpoint bookkeeping and memory reads.

Simulator interactions are modelled by explicit oracles (functions from
request data to responses) and the effects of each operation are exposed
as explicit call traces, so that theorems can speak about which simulator
calls an operation issues.  Machine integers (`u32`, `u64`) are modelled
as `Nat` with explicit `% 2^32` / `% 2^64` where wrap-around matters.
-/

namespace Cornea

/-! ## Watch triggers and stop reasons (src/gdb/a64.rs) -/

/-- Access kind of a watchpoint, mirroring `gdbstub`'s `WatchKind`. -/
inductive WatchKind where
  | read
  | write
  | readWrite
deriving DecidableEq, Repr

/-- Payload of an `IRIS_BREAKPOINT_HIT` event, mirroring `struct
WatchTrigger` in `src/gdb/a64.rs` (`ACCESS_RW` / `ACCESS_ADDR` /
`ACCESS_SIZE`). -/
structure WatchTrigger where
  kind : String
  addr : Nat
  size : Nat
deriving DecidableEq, Repr

/-- Stop reason returned by `resume`, mirroring `gdbstub`'s
`StopReason` (the variants this program produces). -/
inductive StopReason where
  | doneStep
  | hwBreak
  | gdbInterrupt
  | watch (kind : WatchKind) (addr : Nat)
deriving DecidableEq, Repr

/-- Minimum of a list of naturals, folded from the head.  Used to model
`BTreeMap::range(..).next()`, which yields the least key in the queried
interval. -/
def foldMin (k : Nat) (ks : List Nat) : Nat :=
  ks.foldl min k

/-- Least key of `keys` lying in the half-open interval `[lo, hi)`, or
`none` if no key does.  Models
`self.watchpoints.range(lo..hi).next()` in `src/gdb/a64.rs`: the first
key, in ascending order, of the ordered map restricted to `[lo, hi)`. -/
def minInRange (keys : List Nat) (lo hi : Nat) : Option Nat :=
  match keys.filter (fun k => decide (lo ≤ k) && decide (k < hi)) with
  | [] => none
  | k :: ks => some (foldMin k ks)

/-- Reported watch address for a trigger: the least registered
watchpoint key within `[trigger.addr, trigger.addr + trigger.size)`, or
`trigger.addr` when no key lies in that interval (`src/gdb/a64.rs`,
lines 274-280). -/
def resolveWatchAddr (wkeys : List Nat) (t : WatchTrigger) : Nat :=
  match minInRange wkeys t.addr (t.addr + t.size) with
  | some a => a
  | none => t.addr

/-- Parse the `ACCESS_RW` string of a trigger, mirroring the `match
trigger.kind.as_str()` in `src/gdb/a64.rs` lines 268-273 (any other
string falls through to `HwBreak`). -/
def parseWatchKind (s : String) : Option WatchKind :=
  match s with
  | "r" => some WatchKind.read
  | "w" => some WatchKind.write
  | "rw" => some WatchKind.readWrite
  | _ => none

/-- Stop reason computed after a `continue` resume observes
`running = false` (`src/gdb/a64.rs`, lines 266-284): inspect the shared
stop-event slot; an empty slot or an unrecognised trigger kind yields
`HwBreak`, otherwise `Watch` with the resolved address. -/
def continueStopReason (wkeys : List Nat) (slot : Option WatchTrigger) : StopReason :=
  match slot with
  | none => StopReason.hwBreak
  | some t =>
    match parseWatchKind t.kind with
    | none => StopReason.hwBreak
    | some k => StopReason.watch k (resolveWatchAddr wkeys t)

/-! ## The resume poll loop (src/gdb/a64.rs lines 242-288, src/gdb/t32.rs
lines 214-241)

The loop is driven by observations of the simulator: at each iteration
`simulationTime.get` reports `running`, and the GDB-interrupt flag is
polled only while `running` is true.  We model a `continue` resume as a
function of the finite list of `(running, interruptPending)` pairs the
loop observes, and expose the simulator calls it issues. -/

/-- One simulator call issued by the resume loop. -/
inductive SimCall where
  | run
  | get
  | stop
deriving DecidableEq, Repr

/-- Poll loop body of `resume` for a `continue` action: consume
observations until `running` is false; while running, a pending
interrupt issues `simulationTime.stop` and returns `GdbInterrupt`
immediately.  Returns the calls issued after `simulationTime.run`
together with the outcome (`none` when the observation list ran out
while still running, i.e. the real loop would still be polling). -/
def pollContinue (wkeys : List Nat) (slot : Option WatchTrigger) :
    List (Bool × Bool) → List SimCall × Option StopReason
  | [] => ([], none)
  | (running, pending) :: rest =>
    if running then
      if pending then ([SimCall.get, SimCall.stop], some StopReason.gdbInterrupt)
      else
        let (cs, r) := pollContinue wkeys slot rest
        (SimCall.get :: cs, r)
    else ([SimCall.get], some (continueStopReason wkeys slot))

/-- A whole `continue` resume: `simulationTime.run`, then the poll loop.
`obs` is the sequence of `(running, pending)` observations. -/
def continueResume (wkeys : List Nat) (slot : Option WatchTrigger)
    (obs : List (Bool × Bool)) : List SimCall × Option StopReason :=
  let (cs, r) := pollContinue wkeys slot obs
  (SimCall.run :: cs, r)

/-! ## Breakpoint bookkeeping

`src/gdb/a64.rs` keeps `breakpoints : HashMap<u64, Vec<u64>>` (guest
address to the simulator ids installed, one per address space whose
installation succeeded) plus a memoised `spaces` cache;
`src/gdb/t32.rs` keeps `breakpoints : HashMap<u32, u64>` (a single
simulator id per address) and no spaces cache.  Maps are modelled as
association lists with distinct keys; new entries are inserted at the
head, which is only done when the key is absent.  The simulator is an
oracle: `install space = some id` means `breakpoint::code` in that
address space succeeds returning `id`; `del id = true` means
`breakpoint.delete` for that id succeeds.  Each operation also returns
the list of simulator calls it issued (the space ids where an install
was attempted, resp. the breakpoint ids whose deletion was attempted). -/

/-- Adapter state of the ARMv8-A stub relevant to breakpoints
(`src/gdb/a64.rs`, fields `breakpoints` and `spaces`). -/
structure A64State where
  breakpoints : List (Nat × List Nat)
  spaces : Option (List Nat)
deriving DecidableEq, Repr

/-- Adapter state of the ARMv7-M stub relevant to breakpoints
(`src/gdb/t32.rs`, field `breakpoints`). -/
structure T32State where
  breakpoints : List (Nat × Nat)
deriving DecidableEq, Repr

/-- The `add_hw_breakpoint` of `src/gdb/a64.rs` (lines 324-354): succeed
immediately if `addr` is recorded; otherwise fill the spaces cache if
empty, attempt a code-breakpoint install in every cached space, collect
the ids of the successes, fail iff none succeeded, else record the
collected ids under `addr`.  Returns (result, new state, spaces where an
install was attempted). -/
def a64AddHwBreakpoint (install : Nat → Option Nat) (simSpaces : List Nat)
    (st : A64State) (addr : Nat) : Bool × A64State × List Nat :=
  match st.breakpoints.lookup addr with
  | some _ => (true, st, [])
  | none =>
    let spaces := st.spaces.getD simSpaces
    let st1 : A64State := { st with spaces := some spaces }
    let store := spaces.filterMap install
    if store.isEmpty then (false, st1, spaces)
    else (true, { st1 with breakpoints := (addr, store) :: st1.breakpoints }, spaces)

/-- Attempt `breakpoint.delete` on each id in order, stopping at the
first failure (mirrors the `for bkpt in ent.get()` loop of
`remove_hw_breakpoint` in `src/gdb/a64.rs`, lines 360-365).  Returns
(all succeeded, ids whose deletion was attempted). -/
def deleteAll (del : Nat → Bool) : List Nat → Bool × List Nat
  | [] => (true, [])
  | id :: rest =>
    if del id then
      let (ok, tr) := deleteAll del rest
      (ok, id :: tr)
    else (false, [id])

/-- The `remove_hw_breakpoint` of `src/gdb/a64.rs` (lines 355-369): if
`addr` is recorded, delete every recorded id; any failure returns
`false` leaving the entry in place, otherwise the entry is removed.  An
unrecorded `addr` succeeds with no simulator calls. -/
def a64RemoveHwBreakpoint (del : Nat → Bool) (st : A64State) (addr : Nat) :
    Bool × A64State × List Nat :=
  match st.breakpoints.lookup addr with
  | none => (true, st, [])
  | some ids =>
    let (ok, tr) := deleteAll del ids
    if ok then
      (true, { st with breakpoints := st.breakpoints.eraseP (fun p => p.1 == addr) }, tr)
    else (false, st, tr)

/-- The `add_hw_breakpoint` of `src/gdb/t32.rs` (lines 272-286): succeed
immediately if `addr` is recorded; otherwise attempt a single
code-breakpoint install with `spaceId = 0` and record its id on
success.  Returns (result, new state, spaces where an install was
attempted). -/
def t32AddHwBreakpoint (install : Nat → Option Nat) (st : T32State) (addr : Nat) :
    Bool × T32State × List Nat :=
  match st.breakpoints.lookup addr with
  | some _ => (true, st, [])
  | none =>
    match install 0 with
    | some id => (true, ⟨(addr, id) :: st.breakpoints⟩, [0])
    | none => (false, st, [0])

/-- The `remove_hw_breakpoint` of `src/gdb/t32.rs` (lines 287-302): if
`addr` is recorded, delete its single id, removing the entry on
success; an unrecorded `addr` succeeds with no simulator calls. -/
def t32RemoveHwBreakpoint (del : Nat → Bool) (st : T32State) (addr : Nat) :
    Bool × T32State × List Nat :=
  match st.breakpoints.lookup addr with
  | none => (true, st, [])
  | some id =>
    if del id then
      (true, ⟨st.breakpoints.eraseP (fun p => p.1 == addr)⟩, [id])
    else (false, st, [id])

/-! ## Message-id assignment (src/lib.rs, `send_many`, lines 203-229)

`send_many` assigns each outgoing message the id
`((inst_id.unwrap_or(0) as u64) << 32) | current_msg_id as u64` and then
increments `current_msg_id`, a `u32` (which therefore wraps modulo
`2^32`). -/

/-- Message id built from the client's instance id (a `u32`) and the
current message counter (a `u32`), as in `src/lib.rs` line 218. -/
def mkMsgId (instId ctr : Nat) : Nat :=
  ((instId % 2 ^ 32) <<< 32) ||| (ctr % 2 ^ 32)

/-- Ids assigned by one `send_many` call sending `n` messages starting
from counter value `c0`; the counter wraps at `2^32` because
`current_msg_id` is a `u32`. -/
def sendManyIds (instId : Nat) : Nat → Nat → List Nat
  | _, 0 => []
  | c0, n + 1 => mkMsgId instId c0 :: sendManyIds instId ((c0 + 1) % 2 ^ 32) n

/-! ## Response correlation (src/lib.rs, `wait_for_many`, lines 250-334)

`wait_for_many` collects the pending ids into a `HashSet` and reads
envelopes from the transport.  A response whose id is pending is pushed
onto the output vector *in arrival order* and its id struck; when the
set empties the output is returned.  End of stream with ids still
pending is an error.  The envelope stream is modelled as the list of
`(id, result)` pairs of the response envelopes read (events and errors
take other branches of the loop and are not needed for the ordering
claims). -/

/-- Inner loop of `wait_for_many`: `remaining` is the pending id set,
`out` the output vector accumulated so far, and the third argument the
response envelopes still to be read. -/
def collectResponses : List Nat → List Nat → List (Nat × Nat) → Option (List Nat)
  | _, _, [] => none
  | remaining, out, (id, res) :: rest =>
    if id ∈ remaining then
      let remaining2 := remaining.erase id
      let out2 := out ++ [res]
      if remaining2.isEmpty then some out2 else collectResponses remaining2 out2 rest
    else collectResponses remaining out rest

/-- The `wait_for_many` of `src/lib.rs`: duplicate handles collapse into
one pending id (the ids are collected into a set); an empty handle set
returns the empty vector at once. -/
def waitForManyRes (handles : List Nat) (arrivals : List (Nat × Nat)) : Option (List Nat) :=
  let s := handles.dedup
  if s.isEmpty then some [] else collectResponses s [] arrivals

/-- The `batch` of `src/lib.rs` (lines 350-361): `send_many` the `n`
requests (assigning their ids), then `wait_for_many` the returned
handles. -/
def batchResults (instId c0 n : Nat) (arrivals : List (Nat × Nat)) : Option (List Nat) :=
  waitForManyRes (sendManyIds instId c0 n) arrivals

/-! ## Handshake (src/lib.rs, `register` lines 140-169 and
`read_formats` lines 171-183) -/

/-- Rust `char::is_ascii_whitespace`: space, tab, line feed, form feed,
carriage return. -/
def isAsciiWhitespace (c : Char) : Bool :=
  c == ' ' || c == '\t' || c == '\n' || c == '\x0c' || c == '\r'

/-- Split a character list at separators chosen by `p`, discarding the
separators and empty chunks; `acc` holds the current chunk reversed.
Models Rust's `split_ascii_whitespace` when `p` is
`isAsciiWhitespace`. -/
def splitWordsAux (p : Char → Bool) : List Char → List Char → List (List Char)
  | [], acc => if acc.isEmpty then [] else [acc.reverse]
  | c :: cs, acc =>
    if p c then
      if acc.isEmpty then splitWordsAux p cs []
      else acc.reverse :: splitWordsAux p cs []
    else splitWordsAux p cs (c :: acc)

/-- Rust `str::trim_end_matches(",")`: remove every trailing comma. -/
def trimTrailingCommas (s : String) : String :=
  String.mk ((s.toList.reverse.dropWhile (fun c => c == ',')).reverse)

/-- Token list of a `Supported-Formats` banner line body: split on ASCII
whitespace, then trim trailing commas from each token (`read_formats`,
src/lib.rs lines 176-178). -/
def formatTokens (s : String) : List String :=
  (splitWordsAux isAsciiWhitespace s.toList []).map (fun cs => trimTrailingCommas (String.mk cs))

/-- Rust `str::strip_prefix`: `some` of the remainder when `pre` is a
prefix of `s`, else `none`. -/
def stripPrefixStr (pre s : String) : Option String :=
  if pre.toList.isPrefixOf s.toList then some (String.mk (s.toList.drop pre.toList.length))
  else none

/-- The `read_formats` of `src/lib.rs`: scan banner lines for the first
one starting with `"Supported-Formats: "` and return its token list;
`none` when the connection ends first. -/
def readFormats : List String → Option (List String)
  | [] => none
  | l :: ls =>
    match stripPrefixStr "Supported-Formats: " l with
    | some rest => some (formatTokens rest)
    | none => readFormats ls

/-- The `register` of `src/lib.rs` after the `CONNECT` line is written:
read the banner; error if the server hung up before a
`Supported-Formats` line or if `IrisJson` is not among the tokens;
otherwise perform the `instanceRegistry_registerInstance` RPC (modelled
by the oracle `regResult`) and store the returned instance id. -/
def registerClient (lines : List String) (regResult : Except String Nat) :
    Except String Nat :=
  match readFormats lines with
  | none => Except.error "The Iris server hug up before completing the handshake"
  | some formats =>
    if "IrisJson" ∈ formats then regResult
    else Except.error "The Iris server does not support IrisJson"

/-! ## Frame parsing inside `wait_for_many` (src/lib.rs, lines 263-328)

Each line read from the transport is checked for the `"IrisJson:"`
prefix, split at the next `:` into a length field and a payload, the
length field parsed with `usize::from_str` and the result unwrapped with
`.expect("HERE")` — a panic when the parse failed — and the payload
accepted only when its byte length equals the parsed length. -/

/-- Rust `usize::from_str` on a 64-bit target: an optional leading `+`,
then one or more ASCII digits, rejecting values not below `2^64`. -/
def parseUsize (s : String) : Option Nat :=
  let cs :=
    match s.toList with
    | '+' :: rest => rest
    | cs => cs
  if cs.isEmpty then none
  else if cs.all Char.isDigit then
    let v := cs.foldl (fun acc c => acc * 10 + (c.toNat - 48)) 0
    if v < 2 ^ 64 then some v else none
  else none

/-- Rust `str::splitn(2, ":")` — everything before the first colon, and
`some` of everything after it when a colon exists. -/
def splitn2Colon (s : String) : String × Option String :=
  let l := s.toList
  let before := l.takeWhile (fun c => c != ':')
  match l.drop before.length with
  | [] => (String.mk before, none)
  | _ :: after => (String.mk before, some (String.mk after))

/-- Outcome of the frame-level handling of one transport line inside
`wait_for_many`. -/
inductive FrameOutcome where
  /-- The line does not start with `IrisJson:`: logged and skipped. -/
  | notIrisJson
  /-- No second colon: logged `ipc missing payload` and skipped. -/
  | missingPayload
  /-- The payload byte length differs from the parsed length field:
  logged `ipc length did not match computed length` and skipped. -/
  | lengthMismatch
  /-- The length field failed to parse: `.expect("HERE")` panics. -/
  | panic
  /-- Frame accepted; the payload goes on to JSON decoding. -/
  | accepted (p : String)
deriving DecidableEq, Repr

/-- Frame-level handling of one line by `wait_for_many`
(src/lib.rs lines 265-272 and 313-328). -/
def processFrameLine (line : String) : FrameOutcome :=
  match stripPrefixStr "IrisJson:" line with
  | none => FrameOutcome.notIrisJson
  | some rest =>
    let (szStr, payload) := splitn2Colon rest
    match payload with
    | none => FrameOutcome.missingPayload
    | some p =>
      match parseUsize szStr with
      | none => FrameOutcome.panic
      | some sz =>
        if p.utf8ByteSize = sz then FrameOutcome.accepted p
        else FrameOutcome.lengthMismatch

/-! ## Memory reads (src/gdb/a64.rs `read_addrs` lines 197-232,
src/gdb/t32.rs `read_addrs` lines 182-204) -/

/-- One `memory_read` RPC request: `{spaceId, address, byteWidth,
count}` (the `instId` field is the fixed target instance and is
omitted). -/
structure MemReadReq where
  space : Nat
  addr : Nat
  width : Nat
  count : Nat
deriving DecidableEq, Repr

/-- The fields of `resource::ResourceInfo` the adapter consumes. -/
structure RscInfo where
  name : String
  id : Nat
deriving DecidableEq, Repr

/-- Scan of the resource cache for `PC_MEMSPACE` (src/gdb/a64.rs lines
202-208): every match overwrites the previous one, so the last
`PC_MEMSPACE` entry wins. -/
def findMemspace (resources : List RscInfo) : Option Nat :=
  resources.foldl (fun acc r => if r.name = "PC_MEMSPACE" then some r.id else acc) none

/-- Rust `u64::to_le_bytes`: the eight little-endian bytes of a 64-bit
word. -/
def u64LeBytes (w : Nat) : List Nat :=
  (List.range 8).map (fun i => w / 2 ^ (8 * i) % 256)

/-- Write a byte stream over the front of a buffer: byte `offset` of the
stream replaces `buf[offset]` whenever `offset` is in bounds; the rest
of the buffer is untouched (the `for (offset, byte)` loop of
`read_addrs`). -/
def overwritePrefix : List Nat → List Nat → List Nat
  | buf, [] => buf
  | [], _ => []
  | _ :: bs, x :: xs => x :: overwritePrefix bs xs

/-- Re-emit the returned 64-bit words as little-endian bytes into the
caller's buffer. -/
def emitMemBytes (buf words : List Nat) : List Nat :=
  overwritePrefix buf ((words.map u64LeBytes).flatten)

/-- The `read_addrs` of `src/gdb/a64.rs`: locate the resource named
`PC_MEMSPACE` (target error when absent), read it (oracle `rscRead`) to
obtain the active space id (target error when the read returns no
data), then `memory.read` (oracle `memRead`, `none` for an RPC failure)
with `byteWidth = 1` and `count` the buffer length.  Returns the filled
buffer and the issued `memory_read` request. -/
def a64ReadAddrs (resources : List RscInfo) (rscRead : Nat → List Nat)
    (memRead : MemReadReq → Option (List Nat)) (startAddr : Nat) (buf : List Nat) :
    Option (List Nat × MemReadReq) :=
  match findMemspace resources with
  | none => none
  | some rid =>
    match (rscRead rid).head? with
    | none => none
    | some space =>
      let req : MemReadReq := ⟨space, startAddr, 1, buf.length⟩
      match memRead req with
      | none => none
      | some words => some (emitMemBytes buf words, req)

/-- The `read_addrs` of `src/gdb/t32.rs`: `memory.read` with
`spaceId = 0`, `byteWidth = 1` and `count` the buffer length. -/
def t32ReadAddrs (memRead : MemReadReq → Option (List Nat)) (startAddr : Nat)
    (buf : List Nat) : Option (List Nat × MemReadReq) :=
  let req : MemReadReq := ⟨0, startAddr, 1, buf.length⟩
  match memRead req with
  | none => none
  | some words => some (emitMemBytes buf words, req)

/-! ## Helper lemmas -/

theorem foldMin_mem (ks : List Nat) : ∀ k : Nat, foldMin k ks ∈ k :: ks := by
  induction ks with
  | nil => intro k; simp [foldMin]
  | cons x xs ih =>
    intro k
    have h := ih (min k x)
    rcases Nat.le_total k x with hkx | hxk
    · rw [Nat.min_eq_left hkx] at h
      simp only [foldMin, List.foldl_cons] at *
      rw [Nat.min_eq_left hkx]
      rcases List.mem_cons.mp h with h1 | h1
      · exact List.mem_cons.mpr (Or.inl h1)
      · exact List.mem_cons.mpr (Or.inr (List.mem_cons.mpr (Or.inr h1)))
    · rw [Nat.min_eq_right hxk] at h
      simp only [foldMin, List.foldl_cons] at *
      rw [Nat.min_eq_right hxk]
      rcases List.mem_cons.mp h with h1 | h1
      · exact List.mem_cons.mpr (Or.inr (List.mem_cons.mpr (Or.inl h1)))
      · exact List.mem_cons.mpr (Or.inr (List.mem_cons.mpr (Or.inr h1)))

theorem foldMin_le (ks : List Nat) : ∀ k : Nat, ∀ b ∈ k :: ks, foldMin k ks ≤ b := by
  induction ks with
  | nil => intro k b hb; simp at hb; simp [foldMin, hb]
  | cons x xs ih =>
    intro k b hb
    simp only [foldMin, List.foldl_cons]
    have h := ih (min k x)
    rcases List.mem_cons.mp hb with h1 | h1
    · rw [h1]
      exact le_trans (h (min k x) (List.mem_cons_self _ _)) (Nat.min_le_left _ _)
    rcases List.mem_cons.mp h1 with h2 | h2
    · rw [h2]
      exact le_trans (h (min k x) (List.mem_cons_self _ _)) (Nat.min_le_right _ _)
    · exact h b (List.mem_cons.mpr (Or.inr h2))

theorem minInRange_some (keys : List Nat) (lo hi a : Nat)
    (h : minInRange keys lo hi = some a) :
    a ∈ keys ∧ lo ≤ a ∧ a < hi ∧ ∀ b ∈ keys, lo ≤ b → b < hi → a ≤ b := by
  unfold minInRange at h
  cases hfe : keys.filter (fun k => decide (lo ≤ k) && decide (k < hi)) with
  | nil => rw [hfe] at h; exact absurd h (by simp)
  | cons k ks =>
    rw [hfe] at h
    simp only [Option.some.injEq] at h
    subst h
    have hmem : foldMin k ks ∈ keys.filter (fun k => decide (lo ≤ k) && decide (k < hi)) := by
      rw [hfe]; exact foldMin_mem ks k
    have hfm := List.mem_filter.mp hmem
    refine ⟨hfm.1, ?_, ?_, ?_⟩
    · have := hfm.2; simp at this; exact this.1
    · have := hfm.2; simp at this; exact this.2
    · intro b hb hlob hbhi
      have hbf : b ∈ keys.filter (fun k => decide (lo ≤ k) && decide (k < hi)) :=
        List.mem_filter.mpr ⟨hb, by simp [hlob, hbhi]⟩
      rw [hfe] at hbf
      exact foldMin_le ks k b hbf

theorem minInRange_none (keys : List Nat) (lo hi : Nat) :
    minInRange keys lo hi = none ↔ ∀ b ∈ keys, ¬(lo ≤ b ∧ b < hi) := by
  unfold minInRange
  constructor
  · intro h b hb hcond
    have hbf : b ∈ keys.filter (fun k => decide (lo ≤ k) && decide (k < hi)) :=
      List.mem_filter.mpr ⟨hb, by simp [hcond.1, hcond.2]⟩
    cases hfe : keys.filter (fun k => decide (lo ≤ k) && decide (k < hi)) with
    | nil => rw [hfe] at hbf; exact absurd hbf (by simp)
    | cons k ks => rw [hfe] at h; exact absurd h (by simp)
  · intro h
    cases hfe : keys.filter (fun k => decide (lo ≤ k) && decide (k < hi)) with
    | nil => simp
    | cons k ks =>
      have hk : k ∈ keys.filter (fun k => decide (lo ≤ k) && decide (k < hi)) := by
        rw [hfe]; exact List.mem_cons_self _ _
      have := List.mem_filter.mp hk
      have hcond := this.2
      simp at hcond
      exact absurd hcond (h k this.1)

theorem findMemspace_eq_none (resources : List RscInfo)
    (h : ∀ r ∈ resources, r.name ≠ "PC_MEMSPACE") : findMemspace resources = none := by
  unfold findMemspace
  induction resources with
  | nil => rfl
  | cons r rs ih =>
    simp only [List.foldl_cons]
    rw [if_neg (h r (List.mem_cons_self _ _))]
    exact ih (fun x hx => h x (List.mem_cons.mpr (Or.inr hx)))

theorem overwritePrefix_length (buf : List Nat) :
    ∀ s : List Nat, (overwritePrefix buf s).length = buf.length := by
  induction buf with
  | nil => intro s; cases s <;> rfl
  | cons b bs ih =>
    intro s
    cases s with
    | nil => rfl
    | cons x xs => simp [overwritePrefix, ih]

theorem lookup_eq_none_of_not_mem_keys {β : Type} (l : List (Nat × β)) (a : Nat)
    (h : a ∉ l.map Prod.fst) : l.lookup a = none := by
  induction l with
  | nil => rfl
  | cons p ps ih =>
    simp only [List.map_cons, List.mem_cons] at h
    push_neg at h
    have hne : (a == p.1) = false := by
      simp only [beq_eq_false_iff_ne]
      exact h.1
    simp only [List.lookup, hne]
    exact ih h.2

theorem lookup_eraseP_self {β : Type} (l : List (Nat × β)) (addr : Nat)
    (h : (l.map Prod.fst).Nodup) :
    (l.eraseP (fun p => p.1 == addr)).lookup addr = none := by
  induction l with
  | nil => rfl
  | cons p ps ih =>
    simp only [List.map_cons, List.nodup_cons] at h
    by_cases hp : p.1 = addr
    · rw [List.eraseP_cons_of_pos (by simp [hp])]
      apply lookup_eq_none_of_not_mem_keys
      rw [← hp]
      exact h.1
    · rw [List.eraseP_cons_of_neg (by simp [hp])]
      have hne : (addr == p.1) = false := by simp [Ne.symm hp]
      simp only [List.lookup, hne]
      exact ih h.2

theorem mkMsgId_mod (instId ctr : Nat) : mkMsgId instId ctr % 2 ^ 32 = ctr % 2 ^ 32 := by
  unfold mkMsgId
  apply Nat.eq_of_testBit_eq
  intro i
  simp only [Nat.testBit_mod_two_pow, Nat.testBit_lor, Nat.testBit_shiftLeft]
  by_cases hi : i < 32
  · have h2 : ¬(i ≥ 32) := by omega
    simp [hi, h2]
  · simp [hi]

theorem mkMsgId_ctr_mod (instId ctr : Nat) :
    mkMsgId instId (ctr % 2 ^ 32) = mkMsgId instId ctr := by
  unfold mkMsgId
  congr 1
  exact Nat.mod_mod_of_dvd ctr dvd_rfl

theorem sendManyIds_getElem (instId : Nat) :
    ∀ (n c0 k : Nat), k < n →
      (sendManyIds instId c0 n)[k]? = some (mkMsgId instId ((c0 + k) % 2 ^ 32)) := by
  intro n
  induction n with
  | zero => intro c0 k hk; omega
  | succ m ih =>
    intro c0 k hk
    cases k with
    | zero =>
      simp only [sendManyIds, List.getElem?_cons_zero, Option.some.injEq, Nat.add_zero]
      rw [mkMsgId_ctr_mod]
    | succ j =>
      simp only [sendManyIds, List.getElem?_cons_succ]
      rw [ih ((c0 + 1) % 2 ^ 32) j (by omega)]
      congr 1
      rw [Nat.mod_add_mod]
      congr 1
      omega

theorem pollContinue_interrupt (wkeys : List Nat) (slot : Option WatchTrigger) :
    ∀ (pre rest : List (Bool × Bool)), (∀ x ∈ pre, x = (true, false)) →
      pollContinue wkeys slot (pre ++ (true, true) :: rest) =
        (List.replicate pre.length SimCall.get ++ [SimCall.get, SimCall.stop],
          some StopReason.gdbInterrupt) := by
  intro pre
  induction pre with
  | nil => intro rest _; simp [pollContinue]
  | cons x xs ih =>
    intro rest h
    have hx := h x (List.mem_cons_self _ _)
    subst hx
    have ih2 := ih rest (fun y hy => h y (List.mem_cons.mpr (Or.inr hy)))
    simp only [List.cons_append, pollContinue, List.append_eq, ih2, List.length_cons,
      List.replicate_succ]
    simp

theorem readFormats_eq_none_iff (lines : List String) :
    readFormats lines = none ↔
      ∀ l ∈ lines, stripPrefixStr "Supported-Formats: " l = none := by
  induction lines with
  | nil => simp [readFormats]
  | cons l ls ih =>
    simp only [readFormats]
    match he : stripPrefixStr "Supported-Formats: " l with
    | some rest =>
      simp only [List.mem_cons]
      constructor
      · intro h; exact absurd h (by simp)
      · intro h
        have := h l (Or.inl rfl)
        rw [he] at this
        exact absurd this (by simp)
    | none =>
      rw [ih]
      constructor
      · intro h m hm
        rcases List.mem_cons.mp hm with h1 | h1
        · subst h1; exact he
        · exact h m h1
      · intro h m hm
        exact h m (List.mem_cons.mpr (Or.inr hm))

/-! ## Claim theorems -/

/-- Claim C2: when a `continue` resume ends with `running` false and the
shared stop-event slot holds a WatchTrigger whose kind is one of "r",
"w", "rw", `resume` returns `Watch{kind, addr}` where `addr` is the
smallest key of the ordered watchpoint map lying within the half-open
interval `[trigger.addr, trigger.addr + trigger.size)`, or
`trigger.addr` when no key lies in that interval; if the trigger kind is
unrecognised, or the slot is empty, it returns `HwBreak`. -/
theorem resume_watch_trigger_spec (wkeys : List Nat) (t : WatchTrigger) (k : WatchKind)
    (hk : parseWatchKind t.kind = some k) :
    (∃ a, continueStopReason wkeys (some t) = StopReason.watch k a ∧
      ((a ∈ wkeys ∧ t.addr ≤ a ∧ a < t.addr + t.size ∧
          ∀ b ∈ wkeys, t.addr ≤ b → b < t.addr + t.size → a ≤ b) ∨
        (a = t.addr ∧ ∀ b ∈ wkeys, ¬(t.addr ≤ b ∧ b < t.addr + t.size)))) ∧
    (∀ t2 : WatchTrigger, parseWatchKind t2.kind = none →
      continueStopReason wkeys (some t2) = StopReason.hwBreak) ∧
    continueStopReason wkeys none = StopReason.hwBreak := by
  refine ⟨?_, ?_, rfl⟩
  · refine ⟨resolveWatchAddr wkeys t, ?_, ?_⟩
    · simp only [continueStopReason, hk]
    · unfold resolveWatchAddr
      cases hm : minInRange wkeys t.addr (t.addr + t.size) with
      | none => exact Or.inr ⟨rfl, (minInRange_none _ _ _).mp hm⟩
      | some a => exact Or.inl (minInRange_some _ _ _ a hm)
  · intro t2 h2
    simp only [continueStopReason, h2]

/-- Witness for C2: the hypotheses of `resume_watch_trigger_spec` hold at a
concrete trigger. -/
theorem resume_watch_trigger_spec_witness :
    continueStopReason [0x8000] none = StopReason.hwBreak :=
  (resume_watch_trigger_spec [0x8000] ⟨"w", 0x8004, 4⟩ WatchKind.write (by decide)).2.2

/-- Counterexample for C3: the claim predicts that a trigger at `0x1004` of
size 4 with watchpoints registered at `0x1000` and `0x2000` resolves to
`0x1000`, and that a watchpoint at `0x8000` hit by a write trigger at
`0x8004` of size 4 yields `Watch{Write, 0x8000}`; the code's range query
`watchpoints.range(addr..addr+size)` cannot see a key below the access
address, so both resolve to the raw trigger address instead. -/
theorem watch_resolution_counterexample :
    resolveWatchAddr [0x1000, 0x2000] ⟨"w", 0x1004, 4⟩ = 0x1004 ∧
    resolveWatchAddr [0x1000, 0x2000] ⟨"w", 0x1004, 4⟩ ≠ 0x1000 ∧
    continueStopReason [0x8000] (some ⟨"w", 0x8004, 4⟩) =
      StopReason.watch WatchKind.write 0x8004 ∧
    continueStopReason [0x8000] (some ⟨"w", 0x8004, 4⟩) ≠
      StopReason.watch WatchKind.write 0x8000 := by
  decide

/-- Claim C3 as amended: watchpoint address resolution reports the smallest
registered key within the access window `[addr, addr + size)` and
otherwise the trigger address itself — it does not find a watchpoint
registered below the access address.  With watchpoints at `0x1000` and
`0x2000`, a trigger at `0x1004` of size 4 resolves to `0x1004` and one
at `0x3000` to `0x3000`; with a watchpoint at `0x8000`, a "w" trigger at
`0x8004` of size 4 makes `resume` return `Watch{Write, 0x8004}`.  A key
is reported only when the access window reaches down to it, e.g. a
trigger at `0x0ffe` of size 4 resolves to `0x1000`. -/
theorem watch_resolution_amended :
    resolveWatchAddr [0x1000, 0x2000] ⟨"w", 0x1004, 4⟩ = 0x1004 ∧
    resolveWatchAddr [0x1000, 0x2000] ⟨"w", 0x3000, 4⟩ = 0x3000 ∧
    continueStopReason [0x8000] (some ⟨"w", 0x8004, 4⟩) =
      StopReason.watch WatchKind.write 0x8004 ∧
    resolveWatchAddr [0x1000, 0x2000] ⟨"w", 0x0ffe, 4⟩ = 0x1000 := by
  decide

/-- Claim C5: if, during a `continue` resume, the GDB-interrupt flag becomes
pending while `simulationTime.get` still reports `running = true` (after
any number of quiet polls), the adapter issues `simulationTime.stop`
exactly once — as its final simulator call — and returns
`GdbInterrupt`. -/
theorem resume_interrupt_stops_once (wkeys : List Nat) (slot : Option WatchTrigger)
    (pre rest : List (Bool × Bool)) (hpre : ∀ x ∈ pre, x = (true, false)) :
    (continueResume wkeys slot (pre ++ (true, true) :: rest)).2 =
      some StopReason.gdbInterrupt ∧
    (continueResume wkeys slot (pre ++ (true, true) :: rest)).1 =
      SimCall.run :: (List.replicate pre.length SimCall.get ++ [SimCall.get, SimCall.stop]) ∧
    (continueResume wkeys slot (pre ++ (true, true) :: rest)).1.count SimCall.stop = 1 := by
  have h := pollContinue_interrupt wkeys slot pre rest hpre
  refine ⟨?_, ?_, ?_⟩
  · simp only [continueResume, h]
  · simp only [continueResume, h]
  · simp only [continueResume, h]
    simp [List.count_cons, List.count_append, List.count_replicate]

/-- Witness for C5: one quiet poll, then the interrupt is observed. -/
theorem resume_interrupt_stops_once_witness :
    (continueResume [] none [(true, false), (true, true)]).2 =
      some StopReason.gdbInterrupt :=
  (resume_interrupt_stops_once [] none [(true, false)] [] (by decide)).1

/-- Counterexample for C1: three requests are issued via `batch` (ids 0, 1,
2) and the responses arrive in reverse id order; the returned vector is
in arrival order `[resC, resB, resA]`, not in the caller's order
`[resA, resB, resC]` as claimed. -/
theorem batch_order_counterexample :
    batchResults 0 0 3 [(2, 102), (1, 101), (0, 100)] = some [102, 101, 100] ∧
    batchResults 0 0 3 [(2, 102), (1, 101), (0, 100)] ≠ some [100, 101, 102] := by
  decide

/-- Claim C1 as amended: `batch` returns exactly one result per issued request,
but in the order the responses arrive on the transport, not in the
caller's request order: with requests `[A, B, C]` and responses arriving
in order `[C, B, A]`, the returned vector is `[resC, resB, resA]`. -/
theorem batch_arrival_order (a b c ra rb rc : Nat)
    (hab : a ≠ b) (hac : a ≠ c) (hbc : b ≠ c) :
    waitForManyRes [a, b, c] [(c, rc), (b, rb), (a, ra)] = some [rc, rb, ra] := by
  have hba := hab.symm
  have hca := hac.symm
  have hcb := hbc.symm
  have hdd : ([a, b, c] : List Nat).dedup = [a, b, c] :=
    List.dedup_eq_self.mpr (by simp [hab, hac, hbc])
  simp [waitForManyRes, hdd, collectResponses, List.erase_cons,
    hab, hac, hbc, hba, hca, hcb]

/-- Witness for C1: the amended ordering at concrete ids and results. -/
theorem batch_arrival_order_witness :
    waitForManyRes [0, 1, 2] [(2, 102), (1, 101), (0, 100)] = some [102, 101, 100] :=
  batch_arrival_order 0 1 2 100 101 102 (by decide) (by decide) (by decide)

/-- Counterexample for C4: with two address spaces `[1, 2]` in the cache and
an installer that succeeds in every space, the ARMv8-A variant attempts
an install in both spaces and records both ids, but the ARMv7-M variant
— for the same fresh address — attempts a single install in space `0`
only and records a single id, refuting the claim that the per-space
behaviour holds for both architecture variants. -/
theorem add_breakpoint_variants_counterexample :
    a64AddHwBreakpoint (fun s => some (s + 10)) [1, 2] ⟨[], none⟩ 0x40 =
      (true, ⟨[(0x40, [11, 12])], some [1, 2]⟩, [1, 2]) ∧
    t32AddHwBreakpoint (fun s => some (s + 10)) ⟨[]⟩ 0x40 =
      (true, ⟨[(0x40, 10)]⟩, [0]) ∧
    ([0] : List Nat) ≠ [1, 2] := by
  decide

/-- Claim C4 as amended: for a fresh address, the ARMv8-A `add_hw_breakpoint`
ensures the memoised spaces cache, attempts a code-breakpoint install in
every cached space, returns `false` iff no installation succeeded, and
records the collected ids of the successful installations (one per
address space whose install succeeded) under the address; the ARMv7-M
variant instead attempts a single install with `spaceId = 0` and records
that single id, succeeding iff that one install succeeded. -/
theorem add_breakpoint_amended (install : Nat → Option Nat) (simSpaces : List Nat) :
    (∀ (st : A64State) (addr : Nat), st.breakpoints.lookup addr = none →
      (a64AddHwBreakpoint install simSpaces st addr).2.2 = st.spaces.getD simSpaces ∧
      (a64AddHwBreakpoint install simSpaces st addr).2.1.spaces =
        some (st.spaces.getD simSpaces) ∧
      (a64AddHwBreakpoint install simSpaces st addr).1 =
        !((st.spaces.getD simSpaces).filterMap install).isEmpty ∧
      (a64AddHwBreakpoint install simSpaces st addr).2.1.breakpoints.lookup addr =
        (if ((st.spaces.getD simSpaces).filterMap install).isEmpty then none
          else some ((st.spaces.getD simSpaces).filterMap install))) ∧
    (∀ (st : T32State) (addr : Nat), st.breakpoints.lookup addr = none →
      (t32AddHwBreakpoint install st addr).2.2 = [0] ∧
      (t32AddHwBreakpoint install st addr).1 = (install 0).isSome ∧
      (t32AddHwBreakpoint install st addr).2.1.breakpoints.lookup addr = install 0) := by
  constructor
  · intro st addr h
    by_cases hs : ((st.spaces.getD simSpaces).filterMap install).isEmpty
    · simp [a64AddHwBreakpoint, h, hs]
    · simp [a64AddHwBreakpoint, h, hs, List.lookup]
  · intro st addr h
    cases hi : install 0 with
    | none => simp [t32AddHwBreakpoint, h, hi]
    | some id => simp [t32AddHwBreakpoint, h, hi, List.lookup]

/-- Witness for C4: the ARMv7-M clause of the amended claim at a concrete
fresh address. -/
theorem add_breakpoint_amended_witness :
    (t32AddHwBreakpoint (fun s => some (s + 10)) ⟨[]⟩ 0x40).2.2 = [0] :=
  ((add_breakpoint_amended (fun s => some (s + 10)) [1, 2]).2 ⟨[]⟩ 0x40 (by decide)).1

/-- Claim C7: on both architecture variants, a second `add_hw_breakpoint` on
an address whose first add returned `true` returns `true` without
issuing any simulator call, and a second `remove_hw_breakpoint` on an
address whose first remove returned `true` returns `true` without
issuing any simulator call (the install / delete batches are issued on
the first invocation only; the remove clauses assume the breakpoint
map's keys are distinct, which the adapter maintains by inserting only
absent addresses). -/
theorem breakpoint_idempotence (install : Nat → Option Nat) (del : Nat → Bool) :
    (∀ (st : A64State) (simSpaces : List Nat) (addr : Nat),
      (a64AddHwBreakpoint install simSpaces st addr).1 = true →
      a64AddHwBreakpoint install simSpaces
          (a64AddHwBreakpoint install simSpaces st addr).2.1 addr =
        (true, (a64AddHwBreakpoint install simSpaces st addr).2.1, [])) ∧
    (∀ (st : A64State) (addr : Nat), (st.breakpoints.map Prod.fst).Nodup →
      (a64RemoveHwBreakpoint del st addr).1 = true →
      a64RemoveHwBreakpoint del (a64RemoveHwBreakpoint del st addr).2.1 addr =
        (true, (a64RemoveHwBreakpoint del st addr).2.1, [])) ∧
    (∀ (st : T32State) (addr : Nat),
      (t32AddHwBreakpoint install st addr).1 = true →
      t32AddHwBreakpoint install (t32AddHwBreakpoint install st addr).2.1 addr =
        (true, (t32AddHwBreakpoint install st addr).2.1, [])) ∧
    (∀ (st : T32State) (addr : Nat), (st.breakpoints.map Prod.fst).Nodup →
      (t32RemoveHwBreakpoint del st addr).1 = true →
      t32RemoveHwBreakpoint del (t32RemoveHwBreakpoint del st addr).2.1 addr =
        (true, (t32RemoveHwBreakpoint del st addr).2.1, [])) := by
  refine ⟨?_, ?_, ?_, ?_⟩
  · intro st simSpaces addr h1
    cases hl : st.breakpoints.lookup addr with
    | some v => simp [a64AddHwBreakpoint, hl]
    | none =>
      by_cases hs : ((st.spaces.getD simSpaces).filterMap install).isEmpty
      · simp [a64AddHwBreakpoint, hl, hs] at h1
      · simp [a64AddHwBreakpoint, hl, hs, List.lookup]
  · intro st addr hnd h1
    cases hl : st.breakpoints.lookup addr with
    | none => simp [a64RemoveHwBreakpoint, hl]
    | some ids =>
      cases hda : deleteAll del ids with
      | mk ok tr =>
        cases ok with
        | false => simp [a64RemoveHwBreakpoint, hl, hda] at h1
        | true =>
          have h2 :
              (st.breakpoints.eraseP (fun p => p.1 == addr)).lookup addr = none :=
            lookup_eraseP_self st.breakpoints addr hnd
          simp [a64RemoveHwBreakpoint, hl, hda, h2]
  · intro st addr h1
    cases hl : st.breakpoints.lookup addr with
    | some v => simp [t32AddHwBreakpoint, hl]
    | none =>
      cases hi : install 0 with
      | none => simp [t32AddHwBreakpoint, hl, hi] at h1
      | some id => simp [t32AddHwBreakpoint, hl, hi, List.lookup]
  · intro st addr hnd h1
    cases hl : st.breakpoints.lookup addr with
    | none => simp [t32RemoveHwBreakpoint, hl]
    | some id =>
      cases hd : del id with
      | false => simp [t32RemoveHwBreakpoint, hl, hd] at h1
      | true =>
        have h2 :
            (st.breakpoints.eraseP (fun p => p.1 == addr)).lookup addr = none :=
          lookup_eraseP_self st.breakpoints addr hnd
        simp [t32RemoveHwBreakpoint, hl, hd, h2]

/-- Witness for C7: double add on the ARMv7-M variant at a concrete fresh
address with a succeeding installer. -/
theorem breakpoint_idempotence_witness :
    t32AddHwBreakpoint (fun _ => some 5)
        (t32AddHwBreakpoint (fun _ => some 5) ⟨[]⟩ 7).2.1 7 =
      (true, (t32AddHwBreakpoint (fun _ => some 5) ⟨[]⟩ 7).2.1, []) :=
  (breakpoint_idempotence (fun _ => some 5) (fun _ => true)).2.2.1 ⟨[]⟩ 7 (by decide)

/-- Claim C6: `read_memory` on ARMv8-A fails with a target error when no
resource named `PC_MEMSPACE` exists; when it exists, the active space id
is read from it and `memory.read` is issued with that space id,
`byteWidth = 1` and `count` equal to the caller's buffer length; on
ARMv7-M the request carries `spaceId = 0`; the returned 64-bit words are
re-emitted as little-endian bytes into a buffer of exactly the caller's
length, so data `[0x0807060504030201]` fills an 8-byte buffer with
`[01 02 03 04 05 06 07 08]`. -/
theorem read_memory_spec :
    (∀ (resources : List RscInfo) (rscRead : Nat → List Nat)
        (memRead : MemReadReq → Option (List Nat)) (startAddr : Nat) (buf : List Nat),
      (∀ r ∈ resources, r.name ≠ "PC_MEMSPACE") →
      a64ReadAddrs resources rscRead memRead startAddr buf = none) ∧
    (∀ (resources : List RscInfo) (rid space : Nat) (dataRest : List Nat)
        (rscRead : Nat → List Nat) (memRead : MemReadReq → Option (List Nat))
        (startAddr : Nat) (buf words : List Nat),
      findMemspace resources = some rid →
      rscRead rid = space :: dataRest →
      memRead ⟨space, startAddr, 1, buf.length⟩ = some words →
      a64ReadAddrs resources rscRead memRead startAddr buf =
        some (emitMemBytes buf words, ⟨space, startAddr, 1, buf.length⟩)) ∧
    (∀ (memRead : MemReadReq → Option (List Nat)) (startAddr : Nat) (buf words : List Nat),
      memRead ⟨0, startAddr, 1, buf.length⟩ = some words →
      t32ReadAddrs memRead startAddr buf =
        some (emitMemBytes buf words, ⟨0, startAddr, 1, buf.length⟩)) ∧
    (∀ buf words : List Nat, (emitMemBytes buf words).length = buf.length) ∧
    emitMemBytes (List.replicate 8 0) [0x0807060504030201] =
      [1, 2, 3, 4, 5, 6, 7, 8] := by
  refine ⟨?_, ?_, ?_, ?_, by decide⟩
  · intro resources rscRead memRead startAddr buf h
    simp [a64ReadAddrs, findMemspace_eq_none resources h]
  · intro resources rid space dataRest rscRead memRead startAddr buf words hfind hr hmem
    simp [a64ReadAddrs, hfind, hr, hmem]
  · intro memRead startAddr buf words hmem
    simp [t32ReadAddrs, hmem]
  · intro buf words
    exact overwritePrefix_length buf _

/-- Witness for C6: the S3 scenario — `PC_MEMSPACE` has id 7 and value 42;
the read at `0x1000` for 8 bytes issues `memory.read` with space 42,
byteWidth 1, count 8. -/
theorem read_memory_spec_witness :
    a64ReadAddrs [⟨"PC_MEMSPACE", 7⟩] (fun _ => [42])
        (fun req => if req = ⟨42, 0x1000, 1, 8⟩ then some [0x0807060504030201] else none)
        0x1000 (List.replicate 8 0) =
      some (emitMemBytes (List.replicate 8 0) [0x0807060504030201],
        ⟨42, 0x1000, 1, 8⟩) :=
  read_memory_spec.2.1 [⟨"PC_MEMSPACE", 7⟩] 7 42 [] (fun _ => [42])
    (fun req => if req = ⟨42, 0x1000, 1, 8⟩ then some [0x0807060504030201] else none)
    0x1000 (List.replicate 8 0) [0x0807060504030201] (by decide) (by decide) (by decide)

/-- Counterexample for C8: `current_msg_id` is a 32-bit counter that wraps,
so in a session that issues `2^32 + 1` messages the first message and
message number `2^32` receive the same id — ids are reused, refuting the
claim that every two distinct sends receive distinct ids. -/
theorem msg_id_reuse_counterexample :
    (sendManyIds 17 0 (2 ^ 32 + 1))[0]? = (sendManyIds 17 0 (2 ^ 32 + 1))[2 ^ 32]? ∧
    (0 : Nat) ≠ 2 ^ 32 := by
  constructor
  · rw [sendManyIds_getElem 17 (2 ^ 32 + 1) 0 0 (by omega),
      sendManyIds_getElem 17 (2 ^ 32 + 1) 0 (2 ^ 32) (by omega)]
    norm_num
  · norm_num

/-- Claim C8 as amended: every message id assigned by `send_many` equals
`(instance id << 32) | counter` where the counter increments modulo
`2^32` after each message (message `k` of a batch started at counter
`c0` gets id `mkMsgId instId ((c0 + k) % 2^32)`), so two distinct sends
receive distinct ids provided the session issues at most `2^32`
messages; beyond that the 32-bit counter wraps and ids repeat. -/
theorem msg_id_assignment_amended (instId c0 : Nat) :
    (∀ n k, k < n →
      (sendManyIds instId c0 n)[k]? = some (mkMsgId instId ((c0 + k) % 2 ^ 32))) ∧
    (∀ n i j, n ≤ 2 ^ 32 → i < n → j < n → i ≠ j →
      (sendManyIds instId 0 n)[i]? ≠ (sendManyIds instId 0 n)[j]?) := by
  constructor
  · intro n k hk
    exact sendManyIds_getElem instId n c0 k hk
  · intro n i j hn hi hj hij heq
    rw [sendManyIds_getElem instId n 0 i hi, sendManyIds_getElem instId n 0 j hj] at heq
    simp only [Option.some.injEq] at heq
    have hmods := congrArg (· % 2 ^ 32) heq
    simp only [mkMsgId_mod] at hmods
    have h32 : (2 : Nat) ^ 32 = 4294967296 := by norm_num
    rw [h32] at hmods hn
    omega

/-- Witness for C8: the id formula at a concrete batch position. -/
theorem msg_id_assignment_amended_witness :
    (sendManyIds 5 0 3)[1]? = some (mkMsgId 5 ((0 + 1) % 2 ^ 32)) :=
  (msg_id_assignment_amended 5 0).1 3 1 (by decide)

/-- Claim C9: given that the registration RPC itself succeeds, `register`
fails with an error if and only if either the connection ends before a
line starting with `"Supported-Formats: "` is read, or the token list of
the first such line (split on ASCII whitespace with trailing commas
trimmed from each token) does not contain `"IrisJson"`; a server banner
`"Supported-Formats: IrisJson, OtherFmt"` lets registration complete,
returning the registered instance id. -/
theorem register_handshake_spec (lines : List String) (regId : Nat) :
    ((∃ e, registerClient lines (Except.ok regId) = Except.error e) ↔
      (readFormats lines = none ∨
        ∃ toks, readFormats lines = some toks ∧ "IrisJson" ∉ toks)) ∧
    (readFormats lines = none ↔
      ∀ l ∈ lines, stripPrefixStr "Supported-Formats: " l = none) ∧
    registerClient ["Supported-Formats: IrisJson, OtherFmt"] (Except.ok regId) =
      Except.ok regId := by
  refine ⟨?_, readFormats_eq_none_iff lines, by rfl⟩
  unfold registerClient
  cases hf : readFormats lines with
  | none => simp
  | some toks =>
    by_cases hm : "IrisJson" ∈ toks
    · simp [hm]
    · simp [hm]

/-- Witness for C9: the successful-banner clause at a concrete id. -/
theorem register_handshake_spec_witness :
    registerClient ["Supported-Formats: IrisJson, OtherFmt"] (Except.ok 17) =
      Except.ok 17 :=
  (register_handshake_spec [] 17).2.2

/-- Claim C10: a transport line `"IrisJson:abc:{}"`, whose length field is not
a valid decimal `usize`, makes `wait_for_many` panic (the parse result
is unwrapped with `expect`), whereas a line whose valid length field
merely mismatches the payload length (`"IrisJson:5:{}"`) is only logged
and skipped, and a well-formed frame is accepted. -/
theorem frame_bad_length_panics :
    processFrameLine "IrisJson:abc:\x7b\x7d" = FrameOutcome.panic ∧
    processFrameLine "IrisJson:5:\x7b\x7d" = FrameOutcome.lengthMismatch ∧
    processFrameLine "IrisJson:2:\x7b\x7d" = FrameOutcome.accepted "\x7b\x7d" := by
  decide

end Cornea
